import Mathlib

/-!
Shallow embedding of parts of xine-lib (AOSC-Tracking/xine-lib), namely
`src/xine-engine/load_plugins.c` (plugin catalog, decoder dispatch, cache
loading) and `src/xine-engine/net_buf_ctrl.c` (network buffer controller),
together with theorems checking the natural-language specification against
this embedding.
-/

namespace XineLib

/-! ### Decoder dispatch (`_x_get_video_decoder` / `_x_get_audio_decoder` /
`_x_get_spu_decoder`, load_plugins.c lines 2890-2952, 2968-3029, 3148-3203).

A decoder-map row `decoder_map[stream_type][0..]` is modelled as the list of
its non-NULL entries (the C array is NULL-terminated; removal shifts entries
up, which on lists is plain deletion).  For one lookup, a candidate node is
characterized by whether `_load_plugin_class` succeeds for it and by what its
class's `open_plugin` returns: a real instance, NULL, or the distinguished
sentinel `(decoder_t *)1` ("resources temporarily unavailable"). -/

/-- Result of `open_plugin` for one candidate node: real instance, NULL,
or the sentinel `(decoder_t *)1`. -/
inductive OpenRes where
  | ok
  | fail
  | sentinel
deriving DecidableEq, Repr

/-- One decoder-map entry, as seen by one dispatch walk:
does `_load_plugin_class` succeed, and what does `open_plugin` return. -/
structure Cand where
  classLoads : Bool
  openRes : OpenRes
deriving DecidableEq, Repr

/-- What a decoder getter returns to its caller.  `got c` means candidate `c`
supplied a real instance and `inc_node_ref (c)` ran; `gotSentinel c` means the
raw sentinel pointer was returned as if it were an instance, with
`inc_node_ref (c)` run (only the spu getter can do this); `sentinelPtr` means
the raw sentinel pointer was returned without touching any node ref (the local
variable still held it when the walk ended). -/
inductive DispatchRes where
  | noDec
  | sentinelPtr
  | got (c : Cand)
  | gotSentinel (c : Cand)
deriving DecidableEq, Repr

/-- The dispatch walk shared verbatim by `_x_get_video_decoder` and
`_x_get_audio_decoder`.  `last` is the current value of the local result
variable (`vd` / `ad`, initially NULL).  Class-load failure removes the entry
without calling `open_plugin`; an `open_plugin` NULL sets the local variable
to NULL and removes the entry; the sentinel leaves the entry in place and the
walk continues; a real instance stops the walk with the entry (and the rest of
the row) in place. -/
def dispatchSent (last : DispatchRes) : List Cand → List Cand × DispatchRes
  | [] => ([], last)
  | c :: rest =>
    if c.classLoads then
      match c.openRes with
      | .ok => (c :: rest, .got c)
      | .sentinel =>
        let r := dispatchSent .sentinelPtr rest
        (c :: r.1, r.2)
      | .fail => dispatchSent .noDec rest
    else
      dispatchSent last rest

/-- The dispatch walk of `_x_get_spu_decoder` (load_plugins.c 3160-3199).
Identical to the video/audio walk except that there is no check for the
sentinel value: any non-NULL `open_plugin` result, the sentinel included,
takes the success branch (`inc_node_ref`, stop, return the pointer). -/
def dispatchPlain (last : DispatchRes) : List Cand → List Cand × DispatchRes
  | [] => ([], last)
  | c :: rest =>
    if c.classLoads then
      match c.openRes with
      | .ok => (c :: rest, .got c)
      | .sentinel => (c :: rest, .gotSentinel c)
      | .fail => dispatchPlain .noDec rest
    else
      dispatchPlain last rest

/-- `_x_get_video_decoder`, acting on one row of `video_decoder_map`. -/
def x_get_video_decoder (row : List Cand) : List Cand × DispatchRes :=
  dispatchSent .noDec row

/-- `_x_get_audio_decoder`, acting on one row of `audio_decoder_map`;
its loop body is textually identical to the video one. -/
def x_get_audio_decoder (row : List Cand) : List Cand × DispatchRes :=
  dispatchSent .noDec row

/-- `_x_get_spu_decoder`, acting on one row of `spu_decoder_map`. -/
def x_get_spu_decoder (row : List Cand) : List Cand × DispatchRes :=
  dispatchPlain .noDec row

/-- The only walked candidates the video/audio walk keeps in the row:
loaded classes whose `open_plugin` returned the sentinel. -/
def keepSentinel (c : Cand) : Bool :=
  c.classLoads &&
    match c.openRes with
    | .sentinel => true
    | _ => false

/-- One decoder plugin node, reduced to the fields the decoder map uses:
the effective dispatch priority (`node.priority`), the plugin's default
decoder priority (`ainfo.decoder_info.priority`) and the raw
`supported_types` words. -/
structure DecNode where
  priority : Int
  decoder_default_priority : Int
  supported_types : List Nat
deriving DecidableEq, Repr

/-- Modelled from the spec: `PLUGINS_PER_TYPE`, the fixed per-stream-type
capacity of a decoder map row, is defined in a header that is not under
`src/`; the spec only calls it "a small constant".  The theorems below do not
depend on the value. -/
def PLUGINS_PER_TYPE : Nat := 10

/-- Sorted as `_plugin_node_comparator` sorts a plugin sarray:
by falling (non-increasing) `priority`. -/
def DescPrio (l : List DecNode) : Prop :=
  l.Sorted (fun a b => b.priority ≤ a.priority)

/-- One inner step of `map_decoder_list`: place `n` in the row of the stream
type `(t >> 16) & 0xFF`, at the first free slot (the row holds the non-NULL
prefix, so the first free slot is its end), skipping when the row is full. -/
def mapInsert (m : Nat → List DecNode) (n : DecNode) (t : Nat) :
    Nat → List DecNode :=
  let st := (t >>> 16) &&& 0xFF
  if (m st).length < PLUGINS_PER_TYPE then
    Function.update m st (m st ++ [n])
  else
    m

/-- Map one decoder node over all its supported types. -/
def mapAddNode (m : Nat → List DecNode) (n : DecNode) : Nat → List DecNode :=
  n.supported_types.foldl (fun m t => mapInsert m n t) m

/-- `map_decoder_list`: walk the priority-sorted decoder list and build the
per-stream-type dispatch rows (rows start cleared). -/
def map_decoder_list (l : List DecNode) : Nat → List DecNode :=
  l.foldl mapAddNode (fun _ => [])

/-- `xine_sarray_add` on a list sorted by `_plugin_node_comparator`:
insert at the sorted position. -/
def xine_sarray_add (n : DecNode) : List DecNode → List DecNode
  | [] => [n]
  | x :: xs =>
    if x.priority ≤ n.priority then n :: x :: xs else x :: xine_sarray_add n xs

/-- `xine_sarray_remove_ptr`: remove the given element; `none` models the
`~0` "not found" return. -/
def xine_sarray_remove_ptr (l : List DecNode) (n : DecNode) :
    Option (List DecNode) :=
  if n ∈ l then some (l.erase n) else none

/-- The decoder branch of `_insert_node` (lines 607-633): the effective
priority assigned to a freshly registered decoder node, from the user's
configured override and the plugin's default priority.  With an old config
file (`current_version < 1`) the override is first reset to zero. -/
def _insert_node_decoder_priority (current_version user_prio default_prio : Int) :
    Int :=
  let up := if current_version < 1 then 0 else user_prio
  if up ≠ 0 then up * 100 else default_prio

/-- `_decoder_priority_cb` (lines 444-469): remove the node from its type's
sorted list (bailing out unchanged when it is not there yet), recompute its
effective priority from the new user value, re-insert it, and return the new
list together with the updated node.  The caller-visible decoder map is then
`map_decoder_list` of the returned list. -/
def _decoder_priority_cb (l : List DecNode) (node : DecNode) (user_prio : Int) :
    List DecNode × DecNode :=
  match xine_sarray_remove_ptr l node with
  | none => (l, node)
  | some l' =>
    let node' := { node with
      priority := if user_prio ≠ 0 then user_prio * 100
                  else node.decoder_default_priority }
    (xine_sarray_add node' l', node')

/-- `CACHE_CATALOG_VERSION` (load_plugins.c line 109). -/
def CACHE_CATALOG_VERSION : Nat := 5

/-- One classified line of the cache file. -/
inductive CacheLine where
  | commentLn
  | versionLn (vers : Nat)
  | filenameLn (name : String)
  | idLn (id : String)
  | flushLn
  | otherLn
deriving DecidableEq, Repr

/-- The `load_plugin_list` line loop.  `vok` is `version_ok`, `cur` the id of
the record being accumulated, `acc` the cached nodes produced so far (ids).
Before `version_ok` only a `cache_catalog_version` line is inspected: the
current version or exactly one behind sets `version_ok`, anything else
returns at once; every other line is skipped.  After `version_ok`, id lines
fill the record and an empty (flush) line emits it. -/
def load_plugin_loop : List CacheLine → Bool → Option String → List String →
    List String
  | [], vok, cur, acc =>
    if vok then
      match cur with
      | some i => acc ++ [i]
      | none => acc
    else acc
  | .commentLn :: rest, vok, cur, acc => load_plugin_loop rest vok cur acc
  | .versionLn v :: rest, vok, cur, acc =>
    if vok then load_plugin_loop rest vok cur acc
    else if v = CACHE_CATALOG_VERSION ∨ v = CACHE_CATALOG_VERSION - 1 then
      load_plugin_loop rest true cur acc
    else acc
  | .filenameLn _ :: rest, vok, cur, acc => load_plugin_loop rest vok cur acc
  | .idLn i :: rest, vok, cur, acc =>
    if vok then load_plugin_loop rest vok (some i) acc
    else load_plugin_loop rest vok cur acc
  | .flushLn :: rest, vok, cur, acc =>
    if vok then
      match cur with
      | some i => load_plugin_loop rest vok none (acc ++ [i])
      | none => load_plugin_loop rest vok cur acc
    else load_plugin_loop rest vok cur acc
  | .otherLn :: rest, vok, cur, acc => load_plugin_loop rest vok cur acc

/-- `load_plugin_list`: returns the ids of the cached nodes contributed to
the catalog's cache list. -/
def load_plugin_list (ls : List CacheLine) : List String :=
  load_plugin_loop ls false none []

/-- The value of the first `cache_catalog_version` line, if any. -/
def firstVersionLn : List CacheLine → Option Nat
  | [] => none
  | .versionLn v :: _ => some v
  | _ :: rest => firstVersionLn rest

/-! ### Network buffer controller (`net_buf_ctrl.c`).

The fill-level history (`struct stats`, lines 135-148; `nbc_stats_reset`
297-305, `nbc_stats_flat` 307-321, `nbc_stats_add` 326-349): 1024 history
entries in units of 1/16 s (pts / (90000/16), clamped to 255) with a count
per unit value and a tracked minimum.  `hist` and `num` are total functions;
only indices below 1024 resp. values up to 255 are ever touched, matching
the C arrays. -/

/-- The fill history state of one controller
(`min`, `hpos`, `hist[1024]`, `num[256]`). -/
structure NbcStats where
  min : Nat
  hpos : Nat
  hist : Fin 1024 → Nat
  num : Nat → Nat

/-- `nbc_stats_reset`: empty history, all 1024 entries zero. -/
def nbc_stats_reset : NbcStats :=
  { min := 0, hpos := 0, hist := fun _ => 0,
    num := fun v => if v = 0 then 1024 else 0 }

/-- Quantization used throughout the stats code: clamp negative to 0,
divide by `90000/16` (1/16 s at the 90 kHz pts clock), clamp to 255. -/
def quantLevel (pts : Int) : Nat :=
  Nat.min (pts.toNat / (90000 / 16)) 255

/-- `nbc_stats_flat`: overwrite every history entry and every unit count
with the current quantized level (`hpos` is kept). -/
def nbc_stats_flat (s : NbcStats) (pts : Int) : NbcStats :=
  let level := quantLevel pts
  { min := level, hpos := s.hpos, hist := fun _ => level,
    num := fun v => if v = level then 1024 else 0 }

/-- The forward scan of `nbc_stats_add`
(`for (min = this->stats.min; this->stats.num[min] <= 0; min++) ;`).
The C loop is unbounded; under the counting invariant it stops within the
value range, so a fuel of 256 is always enough (proved below). -/
def scanMin (num : Nat → Nat) : Nat → Nat → Nat
  | 0, m => m
  | fuel + 1, m => if num m = 0 then scanMin num fuel (m + 1) else m

/-- `nbc_stats_add`: advance the circular pointer, drop the overwritten
entry's count, record the new quantized level, update the tracked minimum,
and return the minimum scaled back to pts units. -/
def nbc_stats_add (s : NbcStats) (pts : Int) : NbcStats × Nat :=
  if pts < 0 then (s, s.min * (90000 / 16))
  else
    let level := quantLevel pts
    let hpos := (s.hpos + 1) % 1024
    let hidx : Fin 1024 := ⟨hpos, Nat.mod_lt _ (by norm_num)⟩
    let old := s.hist hidx
    let num1 := Function.update s.num old (s.num old - 1)
    let hist1 := Function.update s.hist hidx level
    let num2 := Function.update num1 level (num1 level + 1)
    let m := if level < s.min then level else scanMin num2 256 s.min
    ({ min := m, hpos := hpos, hist := hist1, num := num2 }, m * (90000 / 16))

/-- Number of history entries holding value `v` — what `num[v]` caches. -/
def histCount (hist : Fin 1024 → Nat) (v : Nat) : Nat :=
  (Finset.univ.filter fun i => hist i = v).card

/-- The naive O(n) reference: the minimum over all 1024 history entries. -/
def histMin (hist : Fin 1024 → Nat) : Nat :=
  Finset.univ.inf' Finset.univ_nonempty hist

/-- The stats invariant: `num` counts the history, entries are in range, and
`min` is the true minimum of the history. -/
def StatsInv (s : NbcStats) : Prop :=
  (∀ v, s.num v = histCount s.hist v)
    ∧ (∀ i, s.hist i ≤ 255)
    ∧ s.min = histMin s.hist

/-- Feed a sample sequence through `nbc_stats_add` after `nbc_stats_reset`. -/
def runStats (l : List Int) : NbcStats :=
  l.foldl (fun s pts => (nbc_stats_add s pts).1) nbc_stats_reset

/-- `XINE_FINE_SPEED_NORMAL` comes from the public header `xine.h`, which is
not under `src/`; no theorem below depends on its value. -/
def XINE_FINE_SPEED_NORMAL : Int := 1000000

/-- The dvbspeed controller state read and written by `dvbspeed_put` and
`dvbspeed_get` (fields of `struct xine_nbc_st`, lines 83-148).  The delay
agent fields are omitted: `nbc_delay_base/set/clean` touch only that agent
(and real time), not this state. -/
structure NbcDvb where
  dvbspeed : Nat
  dvbs_center : Int
  dvbs_width : Int
  stats : NbcStats
  audio_last_in_pts : Int
  video_last_in_pts : Int

/-- `dvbspeed_put` (lines 426-498).  `isVideo` selects the fifo the event
happened on; `fill_pts`/`out_pts`/`fifo_fill` are the fifo info fields read;
`capacity` is `fifo->buffer_pool_capacity`; `fineSpeedNonzero` is the
`_x_get_fine_speed` test in the prebuffering case.  Returns the new state
and the requested speed (`-1` = no request).  The delay-agent calls are not
modelled (they do not touch this state). -/
def dvbspeed_put (this : NbcDvb) (isVideo : Bool)
    (fill_pts out_pts fifo_fill capacity : Int) (fineSpeedNonzero : Bool) :
    NbcDvb × Int :=
  if isVideo ∧ (0x71 >>> this.dvbspeed) % 2 = 1 then (this, -1)
  else if ¬ isVideo ∧ (0x0f >>> this.dvbspeed) % 2 = 1 then (this, -1)
  else
    let all_fill := fill_pts + out_pts
    let used := fifo_fill
    if this.dvbspeed = 1 ∨ this.dvbspeed = 4 then
      let r := nbc_stats_add this.stats all_fill
      if (r.2 : Int) > this.dvbs_center + this.dvbs_width
          ∨ 100 * used > 98 * capacity then
        ({ this with dvbspeed := this.dvbspeed + 2, stats := r.1 },
          XINE_FINE_SPEED_NORMAL * 1005 / 1000)
      else
        ({ this with stats := r.1 }, -1)
    else if this.dvbspeed = 7 then
      let speed : Int := if fineSpeedNonzero then 0 else -1
      if all_fill > this.dvbs_center ∨ 100 * used > 73 * capacity then
        let center0 : Int := 2 * 90000
        let center :=
          if this.audio_last_in_pts ≠ 0 ∧ this.video_last_in_pts ≠ 0 ∧ isVideo then
            let d := this.video_last_in_pts - this.audio_last_in_pts + 110000
            if d < 3 * 90000 ∧ d > center0 then d else center0
          else center0
        ({ this with
            dvbspeed := if isVideo then 1 else 4,
            dvbs_center := center,
            dvbs_width := if used < 30 then 135000 else this.dvbs_width,
            stats := nbc_stats_flat this.stats all_fill }, speed)
      else
        (this, speed)
    else if this.dvbspeed = 2 ∨ this.dvbspeed = 5 then
      let r := nbc_stats_add this.stats all_fill
      if (r.2 : Int) > this.dvbs_center ∨ 100 * used > 73 * capacity then
        ({ this with
            dvbspeed := if isVideo then 1 else 4,
            dvbs_width := if used < 30 then 135000 else this.dvbs_width,
            stats := r.1 }, -1)
      else
        ({ this with stats := r.1 }, -1)
    else
      (this, -1)

/-- `dvbspeed_get` (lines 501-554).  `nbc_delay_clean` (thread cleanup) is
not modelled: it touches only the delay agent. -/
def dvbspeed_get (this : NbcDvb) (isVideo : Bool)
    (fill_pts out_pts fifo_fill capacity : Int) : NbcDvb × Int :=
  if isVideo ∧ (0x71 >>> this.dvbspeed) % 2 = 1 then (this, -1)
  else if ¬ isVideo ∧ (0x0f >>> this.dvbspeed) % 2 = 1 then (this, -1)
  else
    let all_fill := fill_pts + out_pts
    let used := fifo_fill
    if this.dvbspeed = 4 ∨ this.dvbspeed = 1 then
      let r := nbc_stats_add this.stats all_fill
      if (r.2 : Int) ≠ 0 ∧ (r.2 : Int) < this.dvbs_center - this.dvbs_width
          ∧ 100 * used < 38 * capacity then
        ({ this with dvbspeed := this.dvbspeed + 1, stats := r.1 },
          XINE_FINE_SPEED_NORMAL * 995 / 1000)
      else
        ({ this with stats := r.1 }, -1)
    else if this.dvbspeed = 2 ∨ this.dvbspeed = 5 then
      if used ≤ 1 then
        ({ this with dvbspeed := 7, stats := nbc_stats_reset }, 0)
      else
        (this, -1)
    else if this.dvbspeed = 6 ∨ this.dvbspeed = 3 then
      let r := nbc_stats_add this.stats all_fill
      if (r.2 : Int) ≠ 0 ∧ (r.2 : Int) < this.dvbs_center
          ∧ 100 * used < 73 * capacity then
        ({ this with dvbspeed := this.dvbspeed - 2, stats := r.1 },
          XINE_FINE_SPEED_NORMAL)
      else
        ({ this with stats := r.1 }, -1)
    else
      (this, -1)

/-- The pts bookkeeping of `nbc_put_cb` (lines 770-789) for one buffer on
one fifo: given the previous `last_in_pts`, the running `fill_pts` and
`pos_pts` and the buffer's `pts`, return the updated
`(fill_pts, pos_pts, last_in_pts)`.  The `(int)diff` cast is exact here:
an accumulated diff has magnitude at most 220000.  (Overflow of the running
`fill_pts` int itself is outside this model.) -/
def nbc_put_cb_pts (last_in_pts fill_pts pos_pts pts : Int) :
    Int × Int × Int :=
  if pts ≠ 0 then
    if last_in_pts ≠ 0 then
      let diff := pts - last_in_pts
      if diff < -220000 then
        let d := diff + 2 ^ 33
        if d < -220000 ∨ d > 220000 then (fill_pts, pos_pts, pts)
        else (fill_pts + d, pos_pts + d, pts)
      else if diff > 220000 then
        let d := diff - 2 ^ 33
        if d < -220000 ∨ d > 220000 then (fill_pts, pos_pts, pts)
        else (fill_pts + d, pos_pts + d, pts)
      else (fill_pts + diff, pos_pts + diff, pts)
    else (fill_pts, pos_pts, pts)
  else (fill_pts, pos_pts, last_in_pts)

/-- The pts bookkeeping of `nbc_get_cb` (lines 985-1003): same wraparound
logic against `last_out_pts`, but the diff is subtracted from `fill_pts`
(and `pos_pts` is not touched).  Returns `(fill_pts, last_out_pts)`. -/
def nbc_get_cb_pts (last_out_pts fill_pts pts : Int) : Int × Int :=
  if pts ≠ 0 then
    if last_out_pts ≠ 0 then
      let diff := pts - last_out_pts
      if diff < -220000 then
        let d := diff + 2 ^ 33
        if d < -220000 ∨ d > 220000 then (fill_pts, pts)
        else (fill_pts - d, pts)
      else if diff > 220000 then
        let d := diff - 2 ^ 33
        if d < -220000 ∨ d > 220000 then (fill_pts, pts)
        else (fill_pts - d, pts)
      else (fill_pts - diff, pts)
    else (fill_pts, pts)
  else (fill_pts, last_out_pts)

/-- `DEFAULT_HIGH_WATER_MARK` (net_buf_ctrl.c line 46), in ms. -/
def DEFAULT_HIGH_WATER_MARK : Nat := 5000

/-- One fifo's capacity factor in `xine_nbc_init` (lines 1149-1162):
`buffer_pool_capacity / num_default` when the config entry exists, else 1.
The C code computes in `double`; capacities and defaults are small integers,
so for the ratios the claims speak about the arithmetic is exact and `ℚ`
models it faithfully. -/
def fifo_factor (buffer_pool_capacity : Nat) (num_default : Option Nat) : ℚ :=
  match num_default with
  | some d => (buffer_pool_capacity : ℚ) / (d : ℚ)
  | none => 1

/-- The `high_water_mark` computed by `xine_nbc_init` (lines 1163-1167):
the default mark scaled by the smaller of the two fifo factors, then
truncated by the `uint32_t` store (values are nonnegative, so truncation
toward zero is the floor). -/
def xine_nbc_init_high_water_mark (vcap : Nat) (vdef : Option Nat)
    (acap : Nat) (adef : Option Nat) : Nat :=
  let vf := fifo_factor vcap vdef
  let af := fifo_factor acap adef
  if vf < af then (⌊(DEFAULT_HIGH_WATER_MARK : ℚ) * vf⌋).toNat
  else (⌊(DEFAULT_HIGH_WATER_MARK : ℚ) * af⌋).toNat

theorem dispatchSent_sublist (last : DispatchRes) (l : List Cand) :
    (dispatchSent last l).1.Sublist l := by
  induction l generalizing last with
  | nil => simp [dispatchSent]
  | cons c rest ih =>
    by_cases hc : c.classLoads
    · cases hr : c.openRes <;>
        simp only [dispatchSent, hc, if_true, hr]
      · exact List.Sublist.refl _
      · exact (ih .noDec).cons c
      · exact (ih .sentinelPtr).cons₂ c
    · simp only [dispatchSent, hc, if_false]
      exact (ih last).cons c

theorem dispatchPlain_sublist (last : DispatchRes) (l : List Cand) :
    (dispatchPlain last l).1.Sublist l := by
  induction l generalizing last with
  | nil => simp [dispatchPlain]
  | cons c rest ih =>
    by_cases hc : c.classLoads
    · cases hr : c.openRes <;>
        simp only [dispatchPlain, hc, if_true, hr]
      · exact List.Sublist.refl _
      · exact (ih .noDec).cons c
      · exact List.Sublist.refl _
    · simp only [dispatchPlain, hc, if_false]
      exact (ih last).cons c

/-- A loaded-class sentinel entry is never removed by the video/audio walk. -/
theorem dispatchSent_keeps_sentinel (last : DispatchRes) (l : List Cand)
    (c : Cand) (hmem : c ∈ l) (hc : c.classLoads) (hr : c.openRes = .sentinel) :
    c ∈ (dispatchSent last l).1 := by
  induction l generalizing last with
  | nil => cases hmem
  | cons d rest ih =>
    by_cases hd : d.classLoads
    · cases hrd : d.openRes <;>
        simp only [dispatchSent, hd, if_true, hrd]
      · exact hmem
      · rcases List.mem_cons.1 hmem with h | h
        · subst h; rw [hrd] at hr; cases hr
        · exact ih .noDec h
      · rcases List.mem_cons.1 hmem with h | h
        · subst h; exact List.mem_cons_self _ _
        · exact List.mem_cons_of_mem _ (ih .sentinelPtr h)
    · simp only [dispatchSent, hd, if_false]
      rcases List.mem_cons.1 hmem with h | h
      · subst h; exact absurd hc (by simp [hd])
      · exact ih last h

/-- A loaded-class sentinel entry is never removed by the spu walk either. -/
theorem dispatchPlain_keeps_sentinel (last : DispatchRes) (l : List Cand)
    (c : Cand) (hmem : c ∈ l) (hc : c.classLoads) (hr : c.openRes = .sentinel) :
    c ∈ (dispatchPlain last l).1 := by
  induction l generalizing last with
  | nil => cases hmem
  | cons d rest ih =>
    by_cases hd : d.classLoads
    · cases hrd : d.openRes <;>
        simp only [dispatchPlain, hd, if_true, hrd]
      · exact hmem
      · rcases List.mem_cons.1 hmem with h | h
        · subst h; rw [hrd] at hr; cases hr
        · exact ih .noDec h
      · exact hmem
    · simp only [dispatchPlain, hd, if_false]
      rcases List.mem_cons.1 hmem with h | h
      · subst h; exact absurd hc (by simp [hd])
      · exact ih last h

/-- Any entry the video/audio walk drops failed: either its class did not
load, or its `open_plugin` returned NULL. -/
theorem dispatchSent_removed_failed (last : DispatchRes) (l : List Cand)
    (c : Cand) (hmem : c ∈ l) (hgone : c ∉ (dispatchSent last l).1) :
    c.classLoads = false ∨ c.openRes = .fail := by
  by_cases hc : c.classLoads
  · by_cases hr : c.openRes = .fail
    · exact Or.inr hr
    · cases hro : c.openRes
      · exfalso
        -- a loaded `ok` candidate: it is dropped only if the walk never
        -- reaches it, but drops happen strictly before the stop point.
        induction l generalizing last with
        | nil => cases hmem
        | cons d rest ih =>
          by_cases hd : d.classLoads
          · cases hrd : d.openRes <;>
              simp only [dispatchSent, hd, if_true, hrd] at hgone
            · exact hgone hmem
            · rcases List.mem_cons.1 hmem with h | h
              · subst h; rw [hrd] at hro; cases hro
              · exact ih DispatchRes.noDec h hgone
            · rcases List.mem_cons.1 hmem with h | h
              · subst h
                exact hgone (List.mem_cons_self _ _)
              · exact ih DispatchRes.sentinelPtr h
                  (fun hx => hgone (List.mem_cons_of_mem _ hx))
          · simp only [dispatchSent, hd, if_false] at hgone
            rcases List.mem_cons.1 hmem with h | h
            · subst h; exact hd hc
            · exact ih last h hgone
      · exact absurd hro hr
      · exact absurd (dispatchSent_keeps_sentinel last l c hmem hc hro) hgone
  · exact Or.inl (by simpa using hc)

/-- Any entry the spu walk drops failed likewise. -/
theorem dispatchPlain_removed_failed (last : DispatchRes) (l : List Cand)
    (c : Cand) (hmem : c ∈ l) (hgone : c ∉ (dispatchPlain last l).1) :
    c.classLoads = false ∨ c.openRes = .fail := by
  by_cases hc : c.classLoads
  · by_cases hr : c.openRes = .fail
    · exact Or.inr hr
    · cases hro : c.openRes
      · exfalso
        induction l generalizing last with
        | nil => cases hmem
        | cons d rest ih =>
          by_cases hd : d.classLoads
          · cases hrd : d.openRes <;>
              simp only [dispatchPlain, hd, if_true, hrd] at hgone
            · exact hgone hmem
            · rcases List.mem_cons.1 hmem with h | h
              · subst h; rw [hrd] at hro; cases hro
              · exact ih DispatchRes.noDec h hgone
            · exact hgone hmem
          · simp only [dispatchPlain, hd, if_false] at hgone
            rcases List.mem_cons.1 hmem with h | h
            · subst h; exact hd hc
            · exact ih last h hgone
      · exact absurd hro hr
      · exact absurd (dispatchPlain_keeps_sentinel last l c hmem hc hro) hgone
  · exact Or.inl (by simpa using hc)

/-- On success the video/audio walk returns a loaded, `ok` candidate that is
still in the row. -/
theorem dispatchSent_got (last : DispatchRes) (l : List Cand) (c : Cand)
    (hlast : ∀ d, last ≠ .got d) (h : (dispatchSent last l).2 = .got c) :
    c ∈ l ∧ c ∈ (dispatchSent last l).1 ∧ c.classLoads = true ∧ c.openRes = .ok := by
  induction l generalizing last with
  | nil =>
    simp only [dispatchSent] at h
    exact absurd h (hlast c)
  | cons d rest ih =>
    by_cases hd : d.classLoads
    · cases hrd : d.openRes <;>
        simp only [dispatchSent, hd, if_true, hrd] at h ⊢
      · cases h
        exact ⟨List.mem_cons_self _ _, List.mem_cons_self _ _, hd, hrd⟩
      · rcases ih .noDec (fun _ => by simp) h with ⟨h1, h2, h3, h4⟩
        exact ⟨List.mem_cons_of_mem _ h1, h2, h3, h4⟩
      · rcases ih .sentinelPtr (fun _ => by simp) h with ⟨h1, h2, h3, h4⟩
        exact ⟨List.mem_cons_of_mem _ h1, List.mem_cons_of_mem _ h2, h3, h4⟩
    · simp only [dispatchSent, hd, if_false] at h ⊢
      rcases ih last hlast h with ⟨h1, h2, h3, h4⟩
      exact ⟨List.mem_cons_of_mem _ h1, h2, h3, h4⟩

/-- The video/audio walk never returns the sentinel dressed up as an opened
instance: a sentinel return keeps the entry for a later retry instead. -/
theorem dispatchSent_no_gotSentinel (last : DispatchRes) (l : List Cand)
    (hlast : ∀ c, last ≠ .gotSentinel c) (c : Cand) :
    (dispatchSent last l).2 ≠ .gotSentinel c := by
  induction l generalizing last with
  | nil => simpa [dispatchSent] using hlast c
  | cons d rest ih =>
    by_cases hd : d.classLoads
    · cases hrd : d.openRes <;>
        simp only [dispatchSent, hd, if_true, hrd]
      · simp
      · exact ih .noDec (fun _ => by simp)
      · exact ih .sentinelPtr (fun _ => by simp)
    · simp only [dispatchSent, hd, if_false]
      exact ih last hlast

/-- The spu walk, hitting a loaded candidate whose `open_plugin` returns the
sentinel, stops at once and hands the sentinel back as the opened instance
(with the node ref incremented). -/
theorem dispatchPlain_sentinel_head (last : DispatchRes) (c : Cand)
    (rest : List Cand) (hc : c.classLoads = true) (hr : c.openRes = .sentinel) :
    dispatchPlain last (c :: rest) = (c :: rest, .gotSentinel c) := by
  simp [dispatchPlain, hc, hr]

/-- Exact shape of a video/audio walk: the row splits into the walked prefix
`pre` (no loaded `ok` candidate in it) and the untouched suffix `suf`; the
surviving row is exactly the loaded sentinel entries of `pre` followed by
`suf`, so every walked candidate that failed (class load or NULL open) is
removed; and the walk stopped either at the end of the row or at the loaded
`ok` candidate heading `suf`. -/
theorem dispatchSent_split (last : DispatchRes) (l : List Cand)
    (hlast : last = .noDec ∨ last = .sentinelPtr) :
    ∃ pre suf, l = pre ++ suf
      ∧ (∀ c ∈ pre, c.classLoads = false ∨ c.openRes ≠ .ok)
      ∧ (dispatchSent last l).1 = pre.filter keepSentinel ++ suf
      ∧ (((dispatchSent last l).2 = .noDec ∨ (dispatchSent last l).2 = .sentinelPtr)
            ∧ suf = []
          ∨ ∃ c rest, suf = c :: rest ∧ c.classLoads = true ∧ c.openRes = .ok
              ∧ (dispatchSent last l).2 = .got c) := by
  induction l generalizing last with
  | nil =>
    refine ⟨[], [], rfl, by simp, by simp [dispatchSent], Or.inl ⟨?_, rfl⟩⟩
    simpa only [dispatchSent] using hlast
  | cons c rest ih =>
    by_cases hc : c.classLoads
    · cases hr : c.openRes
      · refine ⟨[], c :: rest, rfl, by simp, ?_, ?_⟩
        · simp [dispatchSent, hc, hr]
        · exact Or.inr ⟨c, rest, rfl, hc, hr, by simp [dispatchSent, hc, hr]⟩
      · obtain ⟨pre, suf, hsplit, hpre, hlist, hres⟩ := ih .noDec (Or.inl rfl)
        refine ⟨c :: pre, suf, ?_, ?_, ?_, ?_⟩
        · rw [List.cons_append, ← hsplit]
        · intro x hx
          rcases List.mem_cons.1 hx with rfl | hx
          · exact Or.inr (by simp [hr])
          · exact hpre x hx
        · have hk : keepSentinel c = false := by
            simp [keepSentinel, hr]
          simp only [dispatchSent, hc, if_true, hr]
          rw [hlist, List.filter_cons, hk]
          simp
        · simpa only [dispatchSent, hc, if_true, hr] using hres
      · obtain ⟨pre, suf, hsplit, hpre, hlist, hres⟩ := ih .sentinelPtr (Or.inr rfl)
        refine ⟨c :: pre, suf, ?_, ?_, ?_, ?_⟩
        · rw [List.cons_append, ← hsplit]
        · intro x hx
          rcases List.mem_cons.1 hx with rfl | hx
          · exact Or.inr (by simp [hr])
          · exact hpre x hx
        · have hk : keepSentinel c = true := by
            simp [keepSentinel, hr, hc]
          simp only [dispatchSent, hc, if_true, hr]
          rw [hlist, List.filter_cons, hk]
          simp
        · simpa only [dispatchSent, hc, if_true, hr] using hres
    · obtain ⟨pre, suf, hsplit, hpre, hlist, hres⟩ := ih last hlast
      have hcf : c.classLoads = false := by simpa using hc
      have hstep : dispatchSent last (c :: rest) = dispatchSent last rest := by
        simp [dispatchSent, hcf]
      refine ⟨c :: pre, suf, ?_, ?_, ?_, ?_⟩
      · rw [List.cons_append, ← hsplit]
      · intro x hx
        rcases List.mem_cons.1 hx with rfl | hx
        · exact Or.inl hcf
        · exact hpre x hx
      · have hk : keepSentinel c = false := by
          simp [keepSentinel, hcf]
        rw [hstep, hlist, List.filter_cons, hk]
        simp
      · rw [hstep]
        exact hres

/-- Exact shape of a spu walk: the row splits into the walked prefix `pre`
(all of it failed: class load or NULL open) and the untouched suffix `suf`;
the surviving row is exactly `suf`, so every walked failing candidate is
removed; the walk stopped at the end of the row or at the loaded candidate
heading `suf`, whose result — a real instance or the sentinel alike — is
returned with the node ref incremented. -/
theorem dispatchPlain_split (last : DispatchRes) (l : List Cand)
    (hlast : last = .noDec) :
    ∃ pre suf, l = pre ++ suf
      ∧ (∀ c ∈ pre, c.classLoads = false ∨ c.openRes = .fail)
      ∧ (dispatchPlain last l).1 = suf
      ∧ ((dispatchPlain last l).2 = .noDec ∧ suf = []
          ∨ ∃ c rest, suf = c :: rest ∧ c.classLoads = true
              ∧ ((c.openRes = .ok ∧ (dispatchPlain last l).2 = .got c)
                ∨ (c.openRes = .sentinel
                    ∧ (dispatchPlain last l).2 = .gotSentinel c))) := by
  induction l generalizing last with
  | nil =>
    refine ⟨[], [], rfl, by simp, by simp [dispatchPlain], Or.inl ⟨?_, rfl⟩⟩
    simpa only [dispatchPlain] using hlast
  | cons c rest ih =>
    by_cases hc : c.classLoads
    · cases hr : c.openRes
      · refine ⟨[], c :: rest, rfl, by simp, ?_, ?_⟩
        · simp [dispatchPlain, hc, hr]
        · exact Or.inr ⟨c, rest, rfl, hc,
            Or.inl ⟨hr, by simp [dispatchPlain, hc, hr]⟩⟩
      · obtain ⟨pre, suf, hsplit, hpre, hlist, hres⟩ := ih .noDec rfl
        refine ⟨c :: pre, suf, ?_, ?_, ?_, ?_⟩
        · rw [List.cons_append, ← hsplit]
        · intro x hx
          rcases List.mem_cons.1 hx with rfl | hx
          · exact Or.inr hr
          · exact hpre x hx
        · simpa only [dispatchPlain, hc, if_true, hr] using hlist
        · simpa only [dispatchPlain, hc, if_true, hr] using hres
      · refine ⟨[], c :: rest, rfl, by simp, ?_, ?_⟩
        · simp [dispatchPlain, hc, hr]
        · exact Or.inr ⟨c, rest, rfl, hc,
            Or.inr ⟨hr, by simp [dispatchPlain, hc, hr]⟩⟩
    · obtain ⟨pre, suf, hsplit, hpre, hlist, hres⟩ := ih last hlast
      have hcf : c.classLoads = false := by simpa using hc
      have hstep : dispatchPlain last (c :: rest) = dispatchPlain last rest := by
        simp [dispatchPlain, hcf]
      refine ⟨c :: pre, suf, ?_, ?_, ?_, ?_⟩
      · rw [List.cons_append, ← hsplit]
      · intro x hx
        rcases List.mem_cons.1 hx with rfl | hx
        · exact Or.inl hcf
        · exact hpre x hx
      · rw [hstep]
        exact hlist
      · rw [hstep]
        exact hres

/-- C1, counterexample.  On the row `[sentinel, ok]` the claim says every one
of the three getters leaves the sentinel entry in place for a later retry and
walks on (so it would return the working second candidate).  The video getter
does exactly that, but the spu getter stops at the sentinel candidate, treats
the raw sentinel pointer as the opened instance (node ref incremented) and
returns it, never reaching the working candidate. -/
theorem C1_spu_sentinel_counterexample :
    x_get_video_decoder [⟨true, .sentinel⟩, ⟨true, .ok⟩] =
      ([⟨true, .sentinel⟩, ⟨true, .ok⟩], .got ⟨true, .ok⟩)
    ∧ x_get_spu_decoder [⟨true, .sentinel⟩, ⟨true, .ok⟩] =
      ([⟨true, .sentinel⟩, ⟨true, .ok⟩], .gotSentinel ⟨true, .sentinel⟩)
    ∧ DispatchRes.gotSentinel ⟨true, .sentinel⟩ ≠ DispatchRes.got ⟨true, .ok⟩ := by
  refine ⟨rfl, rfl, by decide⟩

/-- C1, amended: all three getters walk the row in order, remove a walked
entry exactly when its class fails to load or its `open_plugin` returns NULL
(subsequent entries shifting up), and never remove a sentinel entry; for the
video and audio getters the sentinel is additionally never handed back as an
opened instance, so the kept entry really is retried later — but the spu
getter has no sentinel case: it stops at a loaded sentinel candidate and
returns the sentinel as the opened instance with the node ref incremented.
The final conjuncts pin the surviving row down exactly — the walked prefix
reduced to its loaded sentinel entries (for spu: to nothing), followed by the
unwalked suffix — so every walked failing candidate is positively removed,
not merely allowed to be. -/
theorem C1_decoder_dispatch_amended (row : List Cand) (c : Cand) :
    ((x_get_video_decoder row).1.Sublist row
      ∧ (x_get_audio_decoder row).1.Sublist row
      ∧ (x_get_spu_decoder row).1.Sublist row)
    ∧ (c ∈ row → c ∉ (x_get_video_decoder row).1 →
        c.classLoads = false ∨ c.openRes = .fail)
    ∧ (c ∈ row → c ∉ (x_get_audio_decoder row).1 →
        c.classLoads = false ∨ c.openRes = .fail)
    ∧ (c ∈ row → c ∉ (x_get_spu_decoder row).1 →
        c.classLoads = false ∨ c.openRes = .fail)
    ∧ (c ∈ row → c.classLoads = true → c.openRes = .sentinel →
        c ∈ (x_get_video_decoder row).1 ∧ c ∈ (x_get_audio_decoder row).1
          ∧ c ∈ (x_get_spu_decoder row).1)
    ∧ ((x_get_video_decoder row).2 ≠ .gotSentinel c
        ∧ (x_get_audio_decoder row).2 ≠ .gotSentinel c)
    ∧ ((x_get_video_decoder row).2 = .got c →
        c ∈ row ∧ c ∈ (x_get_video_decoder row).1
          ∧ c.classLoads = true ∧ c.openRes = .ok)
    ∧ (∀ rest, c.classLoads = true → c.openRes = .sentinel →
        x_get_spu_decoder (c :: rest) = (c :: rest, .gotSentinel c))
    ∧ (∃ pre suf, row = pre ++ suf
        ∧ (∀ x ∈ pre, x.classLoads = false ∨ x.openRes ≠ .ok)
        ∧ (x_get_video_decoder row).1 = pre.filter keepSentinel ++ suf
        ∧ (((x_get_video_decoder row).2 = .noDec
              ∨ (x_get_video_decoder row).2 = .sentinelPtr) ∧ suf = []
            ∨ ∃ d rest, suf = d :: rest ∧ d.classLoads = true
                ∧ d.openRes = .ok ∧ (x_get_video_decoder row).2 = .got d))
    ∧ (∃ pre suf, row = pre ++ suf
        ∧ (∀ x ∈ pre, x.classLoads = false ∨ x.openRes ≠ .ok)
        ∧ (x_get_audio_decoder row).1 = pre.filter keepSentinel ++ suf
        ∧ (((x_get_audio_decoder row).2 = .noDec
              ∨ (x_get_audio_decoder row).2 = .sentinelPtr) ∧ suf = []
            ∨ ∃ d rest, suf = d :: rest ∧ d.classLoads = true
                ∧ d.openRes = .ok ∧ (x_get_audio_decoder row).2 = .got d))
    ∧ (∃ pre suf, row = pre ++ suf
        ∧ (∀ x ∈ pre, x.classLoads = false ∨ x.openRes = .fail)
        ∧ (x_get_spu_decoder row).1 = suf
        ∧ ((x_get_spu_decoder row).2 = .noDec ∧ suf = []
            ∨ ∃ d rest, suf = d :: rest ∧ d.classLoads = true
                ∧ ((d.openRes = .ok ∧ (x_get_spu_decoder row).2 = .got d)
                  ∨ (d.openRes = .sentinel
                      ∧ (x_get_spu_decoder row).2 = .gotSentinel d)))) := by
  refine ⟨⟨dispatchSent_sublist _ row, dispatchSent_sublist _ row,
      dispatchPlain_sublist _ row⟩,
    fun h1 h2 => dispatchSent_removed_failed _ row c h1 h2,
    fun h1 h2 => dispatchSent_removed_failed _ row c h1 h2,
    fun h1 h2 => dispatchPlain_removed_failed _ row c h1 h2,
    fun h1 h2 h3 => ⟨dispatchSent_keeps_sentinel _ row c h1 h2 h3,
      dispatchSent_keeps_sentinel _ row c h1 h2 h3,
      dispatchPlain_keeps_sentinel _ row c h1 h2 h3⟩,
    ⟨dispatchSent_no_gotSentinel _ row (fun _ => by simp) c,
      dispatchSent_no_gotSentinel _ row (fun _ => by simp) c⟩,
    fun h => dispatchSent_got _ row c (fun _ => by simp) h,
    fun rest h1 h2 => dispatchPlain_sentinel_head _ c rest h1 h2,
    dispatchSent_split .noDec row (Or.inl rfl),
    dispatchSent_split .noDec row (Or.inl rfl),
    dispatchPlain_split .noDec row rfl⟩

/-- C1, amended, witness at a concrete row. -/
theorem C1_decoder_dispatch_amended_witness :
    (⟨true, .sentinel⟩ : Cand) ∈ (x_get_video_decoder [⟨true, .sentinel⟩]).1
    ∧ (⟨true, .sentinel⟩ : Cand) ∈ (x_get_audio_decoder [⟨true, .sentinel⟩]).1
    ∧ (⟨true, .sentinel⟩ : Cand) ∈ (x_get_spu_decoder [⟨true, .sentinel⟩]).1 :=
  (C1_decoder_dispatch_amended [⟨true, .sentinel⟩] ⟨true, .sentinel⟩).2.2.2.2.1
    (by decide) (by decide) (by decide)

/-! ### Decoder priority lists and the decoder map
(`map_decoder_list` load_plugins.c 371-426, `_plugin_node_comparator` 686-691,
`xine_sarray` sorted-array behaviour, `_insert_node` decoder branch 607-633,
`_decoder_priority_cb` 444-469). -/

theorem descPrio_append_singleton {l : List DecNode} {n : DecNode}
    (h : DescPrio l) (hall : ∀ x ∈ l, n.priority ≤ x.priority) :
    DescPrio (l ++ [n]) := by
  unfold DescPrio at *
  rw [List.Sorted, List.pairwise_append]
  exact ⟨h, List.pairwise_singleton _ _, fun x hx y hy => by
    rcases List.mem_singleton.1 hy with rfl; exact hall x hx⟩

theorem mapInsert_cases (m : Nat → List DecNode) (n : DecNode) (t st : Nat) :
    mapInsert m n t st = m st ∨ mapInsert m n t st = m st ++ [n] := by
  by_cases hlen : (m ((t >>> 16) &&& 0xFF)).length < PLUGINS_PER_TYPE
  · by_cases hst : st = (t >>> 16) &&& 0xFF
    · subst hst
      right
      simp [mapInsert, hlen]
    · left
      simp [mapInsert, hlen, Function.update_noteq hst]
  · left
    simp [mapInsert, hlen]

theorem mapAddNode_fold (n : DecNode) (ts : List Nat) (m : Nat → List DecNode)
    (hm : ∀ st, DescPrio (m st) ∧ ∀ x ∈ m st, n.priority ≤ x.priority) :
    ∀ st, DescPrio ((ts.foldl (fun m t => mapInsert m n t) m) st)
      ∧ (∀ x ∈ (ts.foldl (fun m t => mapInsert m n t) m) st, n.priority ≤ x.priority)
      ∧ (∀ x ∈ (ts.foldl (fun m t => mapInsert m n t) m) st, x = n ∨ x ∈ m st) := by
  induction ts generalizing m with
  | nil =>
    intro st
    exact ⟨(hm st).1, (hm st).2, fun x hx => Or.inr hx⟩
  | cons t ts ih =>
    intro st
    have hm1 : ∀ st', DescPrio (mapInsert m n t st')
        ∧ ∀ x ∈ mapInsert m n t st', n.priority ≤ x.priority := by
      intro st'
      rcases mapInsert_cases m n t st' with h | h <;> rw [h]
      · exact ⟨(hm st').1, (hm st').2⟩
      · refine ⟨descPrio_append_singleton (hm st').1 (hm st').2, ?_⟩
        intro x hx
        rcases List.mem_append.1 hx with hx | hx
        · exact (hm st').2 x hx
        · rcases List.mem_singleton.1 hx with rfl; exact le_refl _
    have hrec := ih (mapInsert m n t) (fun st' => hm1 st') st
    refine ⟨hrec.1, hrec.2.1, fun x hx => ?_⟩
    rcases hrec.2.2 x hx with h | h
    · exact Or.inl h
    · rcases mapInsert_cases m n t st with hc | hc <;> rw [hc] at h
      · exact Or.inr h
      · rcases List.mem_append.1 h with h | h
        · exact Or.inr h
        · exact Or.inl (List.mem_singleton.1 h)

theorem map_decoder_list_fold (l : List DecNode) (m : Nat → List DecNode)
    (hl : DescPrio l)
    (hm : ∀ st, DescPrio (m st)
      ∧ ∀ x ∈ m st, ∀ y ∈ l, y.priority ≤ x.priority) :
    ∀ st, DescPrio ((l.foldl mapAddNode m) st) := by
  induction l generalizing m with
  | nil => intro st; exact (hm st).1
  | cons n rest ih =>
    unfold DescPrio at hl
    rw [List.sorted_cons] at hl
    have hstep := mapAddNode_fold n n.supported_types m
      (fun st => ⟨(hm st).1, fun x hx => (hm st).2 x hx n (List.mem_cons_self _ _)⟩)
    intro st
    have hm' : ∀ st', DescPrio (mapAddNode m n st')
        ∧ ∀ x ∈ mapAddNode m n st', ∀ y ∈ rest, y.priority ≤ x.priority := by
      intro st'
      refine ⟨(hstep st').1, fun x hx y hy => ?_⟩
      rcases (hstep st').2.2 x hx with h | h
      · subst h; exact hl.1 y hy
      · exact (hm st').2 x h y (List.mem_cons_of_mem _ hy)
    exact ih (mapAddNode m n) hl.2 hm' st

/-- Rows of the decoder map built from a priority-sorted list are themselves
sorted by falling priority. -/
theorem map_decoder_list_sorted (l : List DecNode) (hl : DescPrio l) :
    ∀ st, DescPrio (map_decoder_list l st) :=
  map_decoder_list_fold l (fun _ => []) hl
    (fun _ => ⟨List.sorted_nil, by simp⟩)

theorem mem_xine_sarray_add {x n : DecNode} {l : List DecNode} :
    x ∈ xine_sarray_add n l ↔ x = n ∨ x ∈ l := by
  induction l with
  | nil => simp [xine_sarray_add]
  | cons y ys ih =>
    by_cases h : y.priority ≤ n.priority
    · simp [xine_sarray_add, h]
    · simp only [xine_sarray_add, h, if_false, List.mem_cons, ih]
      tauto

theorem xine_sarray_add_sorted (n : DecNode) (l : List DecNode)
    (h : DescPrio l) : DescPrio (xine_sarray_add n l) := by
  induction l with
  | nil =>
    unfold DescPrio xine_sarray_add
    exact List.sorted_singleton _
  | cons y ys ih =>
    unfold DescPrio at h ⊢
    rw [List.sorted_cons] at h
    by_cases hy : y.priority ≤ n.priority
    · simp only [xine_sarray_add, hy, if_true]
      rw [List.sorted_cons]
      refine ⟨fun b hb => ?_, by rw [List.sorted_cons]; exact h⟩
      rcases List.mem_cons.1 hb with rfl | hb
      · exact hy
      · exact le_trans (h.1 b hb) hy
    · simp only [xine_sarray_add, hy, if_false]
      rw [List.sorted_cons]
      refine ⟨fun b hb => ?_, ih h.2⟩
      rcases mem_xine_sarray_add.1 hb with rfl | hb
      · exact le_of_lt (lt_of_not_le hy)
      · exact h.1 b hb

theorem descPrio_erase (l : List DecNode) (n : DecNode) (h : DescPrio l) :
    DescPrio (l.erase n) :=
  List.Pairwise.sublist (List.erase_sublist n l) h

/-- After a `_decoder_priority_cb` run the per-type list is sorted again. -/
theorem _decoder_priority_cb_sorted (l : List DecNode) (node : DecNode)
    (user_prio : Int) (h : DescPrio l) :
    DescPrio ((_decoder_priority_cb l node user_prio).1) := by
  unfold _decoder_priority_cb xine_sarray_remove_ptr
  by_cases hmem : node ∈ l
  · simp only [hmem, if_true]
    exact xine_sarray_add_sorted _ _ (descPrio_erase l node h)
  · simp only [hmem, if_false]
    exact h

theorem descPrio_get {l : List DecNode} (h : DescPrio l)
    (i j : Fin l.length) (hij : i < j) :
    (l.get j).priority ≤ (l.get i).priority :=
  List.pairwise_iff_get.1 h i j hij

/-- C2: for a priority-sorted decoder list, every row of the decoder map
built by `map_decoder_list` is ordered by non-increasing priority
(`decoder_map[t][i].priority >= decoder_map[t][i+1].priority`, here stated
for all index pairs `i < j`, which subsumes adjacent pairs), and the same
holds for the map rebuilt after any `_decoder_priority_cb` invocation, which
removes the node, recomputes its effective priority, re-inserts it into the
sorted list and rebuilds the map. -/
theorem C2_decoder_map_priority_invariant (l : List DecNode) (node : DecNode)
    (user_prio : Int) (h : DescPrio l) :
    (∀ st, ∀ (i j : Fin (map_decoder_list l st).length), i < j →
      ((map_decoder_list l st).get j).priority
        ≤ ((map_decoder_list l st).get i).priority)
    ∧ (∀ st,
        ∀ (i j : Fin (map_decoder_list
            ((_decoder_priority_cb l node user_prio).1) st).length), i < j →
      ((map_decoder_list ((_decoder_priority_cb l node user_prio).1) st).get j).priority
        ≤ ((map_decoder_list ((_decoder_priority_cb l node user_prio).1) st).get i).priority) :=
  ⟨fun st i j hij => descPrio_get (map_decoder_list_sorted l h st) i j hij,
   fun st i j hij => descPrio_get
     (map_decoder_list_sorted _ (_decoder_priority_cb_sorted l node user_prio h) st)
     i j hij⟩

/-- C2, witness: two decoders for stream type 1, priorities 200 and 100. -/
theorem C2_decoder_map_priority_invariant_witness :
    ((map_decoder_list [⟨200, 100, [0x10000]⟩, ⟨100, 50, [0x10000]⟩] 1).get
        ⟨1, by decide⟩).priority
      ≤ ((map_decoder_list [⟨200, 100, [0x10000]⟩, ⟨100, 50, [0x10000]⟩] 1).get
        ⟨0, by decide⟩).priority :=
  (C2_decoder_map_priority_invariant [⟨200, 100, [0x10000]⟩, ⟨100, 50, [0x10000]⟩]
      ⟨200, 100, [0x10000]⟩ 3 (by unfold DescPrio; decide)).1 1
    ⟨0, by decide⟩ ⟨1, by decide⟩ (by decide)

/-- C6: a registered decoder node's effective dispatch priority is the user
override times 100 when the override is nonzero, else the plugin's default
decoder priority (`_insert_node`, with a current config file); and a
`_decoder_priority_cb` run on a node present in its type's sorted list
recomputes the priority by the same rule, re-inserts the node into the list
keeping it sorted, and the decoder map rebuilt from that list keeps the
falling-priority row order. -/
theorem C6_decoder_priority_rule (cv user_prio default_prio : Int)
    (l : List DecNode) (node : DecNode) (u : Int)
    (hcv : 1 ≤ cv) (hmem : node ∈ l) (hs : DescPrio l) :
    (_insert_node_decoder_priority cv user_prio default_prio
      = if user_prio ≠ 0 then user_prio * 100 else default_prio)
    ∧ ((_decoder_priority_cb l node u).2.priority
      = if u ≠ 0 then u * 100 else node.decoder_default_priority)
    ∧ (_decoder_priority_cb l node u).2 ∈ (_decoder_priority_cb l node u).1
    ∧ DescPrio ((_decoder_priority_cb l node u).1)
    ∧ (∀ st, DescPrio (map_decoder_list ((_decoder_priority_cb l node u).1) st)) := by
  refine ⟨?_, ?_, ?_, _decoder_priority_cb_sorted l node u hs,
    fun st => map_decoder_list_sorted _ (_decoder_priority_cb_sorted l node u hs) st⟩
  · unfold _insert_node_decoder_priority
    have : ¬ cv < 1 := not_lt.2 hcv
    simp [this]
  · unfold _decoder_priority_cb xine_sarray_remove_ptr
    simp [hmem]
  · unfold _decoder_priority_cb xine_sarray_remove_ptr
    simp only [hmem, if_true]
    exact mem_xine_sarray_add.2 (Or.inl rfl)

/-! ### Cache loading version gate (`load_plugin_list`, load_plugins.c
1536-1800; `CACHE_CATALOG_VERSION` = 5 at lines 109-110).

Lines of the cache text, after the classification the loop performs
(comment skip, `[filename]` detection, `_key_2_index` on the key):
the model keeps the classes the version gate and node production depend on.
Record assembly is reduced to its `id` field: a record is flushed into a
cached node on an empty line (key index `_K_flush`) when an id has been
seen; end of input flushes once more.  The duplicate-file `skip` flag and
the per-field decoding do not affect the version gate and are omitted. -/

theorem load_plugin_loop_bad_version (ls : List CacheLine) (cur : Option String)
    (h : ∀ v, firstVersionLn ls = some v → v ≠ 5 ∧ v ≠ 4) :
    load_plugin_loop ls false cur [] = [] := by
  induction ls generalizing cur with
  | nil => simp [load_plugin_loop]
  | cons line rest ih =>
    cases line with
    | commentLn => exact ih cur (fun v hv => h v hv)
    | versionLn v =>
      have hv := h v (by simp [firstVersionLn])
      simp only [load_plugin_loop, Bool.false_eq_true, if_false,
        CACHE_CATALOG_VERSION]
      have : ¬ (v = 5 ∨ v = 5 - 1) := by
        rintro (rfl | rfl)
        · exact hv.1 rfl
        · exact hv.2 rfl
      simp [this]
    | filenameLn name => exact ih cur (fun v hv => h v (by simpa [firstVersionLn] using hv))
    | idLn i =>
      simp only [load_plugin_loop, Bool.false_eq_true, if_false]
      exact ih cur (fun v hv => h v (by simpa [firstVersionLn] using hv))
    | flushLn =>
      simp only [load_plugin_loop, Bool.false_eq_true, if_false]
      exact ih cur (fun v hv => h v (by simpa [firstVersionLn] using hv))
    | otherLn => exact ih cur (fun v hv => h v (by simpa [firstVersionLn] using hv))

/-- C5: the cache loader contributes cached nodes only when the leading
`cache_catalog_version` marker is the current version (5) or exactly one
behind (4); for any other version value, or a missing marker, it stops and
produces no cached node at all — the cache behaves as absent. -/
theorem C5_cache_version_gate (ls : List CacheLine)
    (h : ∀ v, firstVersionLn ls = some v → v ≠ 5 ∧ v ≠ 4) :
    load_plugin_list ls = [] :=
  load_plugin_loop_bad_version ls none h

/-- C5, witness: a version-6 cache holding one otherwise valid record
contributes nothing. -/
theorem C5_cache_version_gate_witness :
    load_plugin_list [.commentLn, .versionLn 6, .filenameLn "a.so",
      .idLn "mpeg2", .flushLn] = [] :=
  C5_cache_version_gate _ (by decide)

/-- C6, witness: override 3 on a node with default priority 100. -/
theorem C6_decoder_priority_rule_witness :
    (_insert_node_decoder_priority 1 3 100 = if (3 : Int) ≠ 0 then 3 * 100 else 100)
    ∧ ((_decoder_priority_cb [⟨200, 100, [0x10000]⟩] ⟨200, 100, [0x10000]⟩ 3).2.priority
      = if (3 : Int) ≠ 0 then 3 * 100 else 100)
    ∧ (_decoder_priority_cb [⟨200, 100, [0x10000]⟩] ⟨200, 100, [0x10000]⟩ 3).2
      ∈ (_decoder_priority_cb [⟨200, 100, [0x10000]⟩] ⟨200, 100, [0x10000]⟩ 3).1
    ∧ DescPrio ((_decoder_priority_cb [⟨200, 100, [0x10000]⟩] ⟨200, 100, [0x10000]⟩ 3).1)
    ∧ (∀ st, DescPrio (map_decoder_list
        ((_decoder_priority_cb [⟨200, 100, [0x10000]⟩] ⟨200, 100, [0x10000]⟩ 3).1) st)) :=
  C6_decoder_priority_rule 1 3 100 [⟨200, 100, [0x10000]⟩] ⟨200, 100, [0x10000]⟩ 3
    (by decide) (by decide) (by unfold DescPrio; decide)

theorem quantLevel_le (pts : Int) : quantLevel pts ≤ 255 :=
  Nat.min_le_right _ _

theorem histMin_le (hist : Fin 1024 → Nat) (i : Fin 1024) :
    histMin hist ≤ hist i :=
  Finset.inf'_le _ (Finset.mem_univ i)

theorem histMin_attained (hist : Fin 1024 → Nat) :
    ∃ i, hist i = histMin hist := by
  obtain ⟨i, _, h⟩ := Finset.exists_mem_eq_inf' (Finset.univ_nonempty) hist
  exact ⟨i, h.symm⟩

theorem histMin_const (v : Nat) : histMin (fun _ => v) = v :=
  le_antisymm (Finset.inf'_le _ (Finset.mem_univ ⟨0, by norm_num⟩))
    (Finset.le_inf' _ _ (fun _ _ => le_rfl))

theorem histCount_update (hist : Fin 1024 → Nat) (p : Fin 1024) (L v : Nat) :
    histCount (Function.update hist p L) v + (if hist p = v then 1 else 0)
      = histCount hist v + (if L = v then 1 else 0) := by
  unfold histCount
  rw [Finset.card_filter, Finset.card_filter,
    ← Finset.sum_erase_add _ _ (Finset.mem_univ p),
    ← Finset.sum_erase_add _ _ (Finset.mem_univ p)]
  have hs : (∑ i in Finset.univ.erase p,
        if Function.update hist p L i = v then 1 else 0)
      = ∑ i in Finset.univ.erase p, if hist i = v then 1 else 0 :=
    Finset.sum_congr rfl (fun i hi => by
      rw [Function.update_noteq (Finset.ne_of_mem_erase hi)])
  rw [hs, Function.update_same]
  omega

theorem histCount_pos (hist : Fin 1024 → Nat) (p : Fin 1024) :
    0 < histCount hist (hist p) :=
  Finset.card_pos.2 ⟨p, by simp⟩

theorem num2_counts (hist : Fin 1024 → Nat) (num : Nat → Nat) (p : Fin 1024)
    (L : Nat) (h : ∀ v, num v = histCount hist v) (v : Nat) :
    Function.update (Function.update num (hist p) (num (hist p) - 1)) L
        (Function.update num (hist p) (num (hist p) - 1) L + 1) v
      = histCount (Function.update hist p L) v := by
  have hpos : 0 < histCount hist (hist p) := histCount_pos hist p
  have hkey := histCount_update hist p L v
  simp only [Function.update_apply, h]
  by_cases hvL : v = L
  · subst hvL
    by_cases hvp : v = hist p
    · rw [← hvp] at hkey hpos ⊢
      simp only [if_pos rfl, eq_self_iff_true, if_true] at hkey ⊢
      omega
    · have hvp' : ¬ hist p = v := fun he => hvp he.symm
      simp only [if_pos rfl, eq_self_iff_true, if_true, if_neg hvp,
        if_neg hvp'] at hkey ⊢
      omega
  · by_cases hvp : v = hist p
    · rw [← hvp] at hkey hpos ⊢
      have hLv : ¬ L = v := fun he => hvL he.symm
      simp only [if_neg hvL, if_pos rfl, eq_self_iff_true, if_true,
        if_neg hLv] at hkey ⊢
      omega
    · have hvp' : ¬ hist p = v := fun he => hvp he.symm
      have hLv : ¬ L = v := fun he => hvL he.symm
      simp only [if_neg hvL, if_neg hvp, if_neg hvp', if_neg hLv] at hkey ⊢
      omega

theorem histMin_update_of_lt (hist : Fin 1024 → Nat) (p : Fin 1024) (L : Nat)
    (h : L < histMin hist) : histMin (Function.update hist p L) = L := by
  apply le_antisymm
  · have hp : Function.update hist p L p = L := Function.update_same p L hist
    calc histMin (Function.update hist p L) ≤ Function.update hist p L p :=
          histMin_le _ p
      _ = L := hp
  · apply Finset.le_inf'
    intro i _
    rcases eq_or_ne i p with rfl | hne
    · rw [Function.update_same]
    · rw [Function.update_noteq hne]
      exact le_trans (le_of_lt h) (histMin_le hist i)

theorem histMin_update_lower (hist : Fin 1024 → Nat) (p : Fin 1024) (L : Nat)
    (h : histMin hist ≤ L) :
    histMin hist ≤ histMin (Function.update hist p L) := by
  apply Finset.le_inf'
  intro i _
  rcases eq_or_ne i p with rfl | hne
  · rw [Function.update_same]; exact h
  · rw [Function.update_noteq hne]; exact histMin_le hist i

theorem scanMin_eq (num : Nat → Nat) (fuel start target : Nat)
    (h1 : start ≤ target) (h2 : num target ≠ 0)
    (h3 : ∀ v, start ≤ v → v < target → num v = 0)
    (h4 : target - start < fuel) :
    scanMin num fuel start = target := by
  induction fuel generalizing start with
  | zero => omega
  | succ fuel ih =>
    by_cases h0 : num start = 0
    · have hne : start ≠ target := fun he => h2 (he ▸ h0)
      have hlt : start < target := lt_of_le_of_ne h1 hne
      simp only [scanMin, h0, if_true]
      exact ih (start + 1) hlt (fun v hv1 hv2 => h3 v (by omega) hv2) (by omega)
    · have hst : start = target := by
        by_contra hne
        exact h0 (h3 start le_rfl (lt_of_le_of_ne h1 hne))
      subst hst
      simp only [scanMin]
      rw [if_neg h0]

theorem statsInv_reset : StatsInv nbc_stats_reset := by
  refine ⟨?_, fun i => Nat.zero_le _, ?_⟩
  · intro v
    show (if v = 0 then 1024 else 0) = histCount (fun _ => 0) v
    unfold histCount
    by_cases hv : v = 0
    · subst hv
      rw [if_pos rfl, Finset.filter_true_of_mem (fun i _ => rfl),
        Finset.card_univ, Fintype.card_fin]
    · have hne : ∀ i : Fin 1024, ¬ ((fun _ => (0 : Nat)) i = v) := fun i he => hv he.symm
      rw [if_neg hv, Finset.filter_false_of_mem (fun i hi => hne i), Finset.card_empty]
  · show (0 : Nat) = histMin (fun _ => 0)
    rw [histMin_const]

theorem statsInv_flat (s : NbcStats) (pts : Int) :
    StatsInv (nbc_stats_flat s pts) := by
  refine ⟨?_, fun i => quantLevel_le pts, ?_⟩
  · intro v
    show (if v = quantLevel pts then 1024 else 0) = histCount (fun _ => quantLevel pts) v
    unfold histCount
    by_cases hv : v = quantLevel pts
    · subst hv
      rw [if_pos rfl, Finset.filter_true_of_mem (fun i _ => rfl),
        Finset.card_univ, Fintype.card_fin]
    · have hne : ∀ i : Fin 1024, ¬ ((fun _ => quantLevel pts) i = v) :=
        fun i he => hv he.symm
      rw [if_neg hv, Finset.filter_false_of_mem (fun i hi => hne i), Finset.card_empty]
  · show quantLevel pts = histMin (fun _ => quantLevel pts)
    rw [histMin_const]

/-- One `nbc_stats_add` step preserves the stats invariant, and its return
value is the naive minimum of the (updated) history, scaled back to pts. -/
theorem nbc_stats_add_spec (s : NbcStats) (pts : Int) (hinv : StatsInv s) :
    StatsInv (nbc_stats_add s pts).1
      ∧ (nbc_stats_add s pts).2
        = histMin (nbc_stats_add s pts).1.hist * (90000 / 16) := by
  obtain ⟨hnum, hbound, hmin⟩ := hinv
  by_cases hneg : pts < 0
  · simp only [nbc_stats_add, hneg, if_true]
    exact ⟨⟨hnum, hbound, hmin⟩, by rw [hmin]⟩
  · simp only [nbc_stats_add, hneg, if_false]
    set level := quantLevel pts with hlv
    set p : Fin 1024 := ⟨(s.hpos + 1) % 1024, Nat.mod_lt _ (by norm_num)⟩ with hp
    set hist1 := Function.update s.hist p level with hh1
    set num2 := Function.update
        (Function.update s.num (s.hist p) (s.num (s.hist p) - 1)) level
        (Function.update s.num (s.hist p) (s.num (s.hist p) - 1) level + 1)
      with hn2
    have hcnt : ∀ v, num2 v = histCount hist1 v :=
      num2_counts s.hist s.num p level hnum
    have hbound1 : ∀ i, hist1 i ≤ 255 := by
      intro i
      rw [hh1, Function.update_apply]
      split
      · exact quantLevel_le pts
      · exact hbound i
    have hm : (if level < s.min then level else scanMin num2 256 s.min)
        = histMin hist1 := by
      by_cases hlt : level < s.min
      · rw [if_pos hlt, hh1, histMin_update_of_lt]
        rw [← hmin]; exact hlt
      · rw [if_neg hlt]
        have hminle : s.min ≤ level := le_of_not_lt hlt
        have h1 : s.min ≤ histMin hist1 := by
          rw [hmin, hh1]
          exact histMin_update_lower s.hist p level (hmin ▸ hminle)
        have h2 : num2 (histMin hist1) ≠ 0 := by
          rw [hcnt]
          obtain ⟨i, hi⟩ := histMin_attained hist1
          have : 0 < histCount hist1 (histMin hist1) :=
            Finset.card_pos.2 ⟨i, by simp [histCount, hi]⟩
          omega
        have h3 : ∀ v, s.min ≤ v → v < histMin hist1 → num2 v = 0 := by
          intro v _ hv2
          rw [hcnt]
          by_contra hne
          have hcp : 0 < histCount hist1 v := Nat.pos_of_ne_zero hne
          obtain ⟨i, hi⟩ := Finset.card_pos.1 hcp
          rw [Finset.mem_filter] at hi
          have hge := histMin_le hist1 i
          have hiv := hi.2
          omega
        have h4 : histMin hist1 - s.min < 256 := by
          have hle : histMin hist1 ≤ hist1 p := histMin_le hist1 p
          have hpl : hist1 p = level := by
            rw [hh1]
            exact Function.update_same p level s.hist
          have h255 : level ≤ 255 := by
            rw [hlv]
            exact quantLevel_le pts
          omega
        exact scanMin_eq num2 256 s.min (histMin hist1) h1 h2 h3 h4
    refine ⟨⟨hcnt, hbound1, hm⟩, by rw [hm]⟩

theorem runStats_foldl_inv (l : List Int) (s : NbcStats) (h : StatsInv s) :
    StatsInv (l.foldl (fun s pts => (nbc_stats_add s pts).1) s) := by
  induction l generalizing s with
  | nil => exact h
  | cons a rest ih =>
    exact ih _ (nbc_stats_add_spec s a h).1

theorem runStats_inv (l : List Int) : StatsInv (runStats l) :=
  runStats_foldl_inv l nbc_stats_reset statsInv_reset

/-- C3: after a reset, for every sequence of non-negative samples and every
next sample, the value returned by `nbc_stats_add` equals the naive O(n)
minimum over the 1024 stored (quantized) history entries, scaled back by
90000/16 — the O(1) bucket-count/forward-scan implementation refines the
naive reference at every point of the sequence. -/
theorem C3_recent_min_refinement (l : List Int) (pts : Int)
    (_hl : ∀ x ∈ l, (0 : Int) ≤ x) (_hpts : 0 ≤ pts) :
    (nbc_stats_add (runStats l) pts).2
      = histMin (nbc_stats_add (runStats l) pts).1.hist * (90000 / 16) :=
  (nbc_stats_add_spec (runStats l) pts (runStats_inv l)).2

/-- C3, witness: one prior sample of 1 s, next sample 0.5 s. -/
theorem C3_recent_min_refinement_witness :
    (nbc_stats_add (runStats [90000]) 45000).2
      = histMin (nbc_stats_add (runStats [90000]) 45000).1.hist * (90000 / 16) :=
  C3_recent_min_refinement [90000] 45000 (by decide) (by decide)

theorem dvbspeed_put_gated_video (s : NbcDvb) (fp op u c : Int) (fs : Bool)
    (h : (0x71 >>> s.dvbspeed) % 2 = 1) :
    dvbspeed_put s true fp op u c fs = (s, -1) := by
  unfold dvbspeed_put
  rw [if_pos ⟨rfl, h⟩]

theorem dvbspeed_put_gated_audio (s : NbcDvb) (fp op u c : Int) (fs : Bool)
    (h : (0x0f >>> s.dvbspeed) % 2 = 1) :
    dvbspeed_put s false fp op u c fs = (s, -1) := by
  unfold dvbspeed_put
  rw [if_neg (fun hc => Bool.false_ne_true hc.1), if_pos ⟨Bool.false_ne_true, h⟩]

theorem dvbspeed_get_gated_video (s : NbcDvb) (fp op u c : Int)
    (h : (0x71 >>> s.dvbspeed) % 2 = 1) :
    dvbspeed_get s true fp op u c = (s, -1) := by
  unfold dvbspeed_get
  rw [if_pos ⟨rfl, h⟩]

theorem dvbspeed_get_gated_audio (s : NbcDvb) (fp op u c : Int)
    (h : (0x0f >>> s.dvbspeed) % 2 = 1) :
    dvbspeed_get s false fp op u c = (s, -1) := by
  unfold dvbspeed_get
  rw [if_neg (fun hc => Bool.false_ne_true hc.1), if_pos ⟨Bool.false_ne_true, h⟩]

/-- C4, counterexample.  A NORMAL-state (dvbspeed 1) video put whose raw
queue occupancy exceeds 98 % of capacity (99 of 100 buffers) raises the speed
by 0.5 % and moves to dvbspeed 3 (the fast-to-drain state of the struct
comment, net_buf_ctrl.c 107-113), not to dvbspeed 2 as the claim says. -/
theorem C4_slow_fill_counterexample :
    (dvbspeed_put ⟨1, 180000, 90000, nbc_stats_reset, 0, 0⟩ true 0 0 99 100
        true).1.dvbspeed = 3
    ∧ (dvbspeed_put ⟨1, 180000, 90000, nbc_stats_reset, 0, 0⟩ true 0 0 99 100
        true).2 = XINE_FINE_SPEED_NORMAL * 1005 / 1000
    ∧ (3 : Nat) ≠ 2 := by
  refine ⟨?_, ?_, by decide⟩ <;>
  · simp only [dvbspeed_put]
    rw [if_neg (by decide), if_neg (by decide), if_pos (by decide),
      if_pos (Or.inr (by norm_num))]

/-- C4, amended: a put on the watched fifo in a NORMAL state (dvbspeed 1
with video watched, 4 with audio watched) with recent-minimum fill above
`dvbs_center + dvbs_width`, or occupancy above 98 % of capacity, requests
speed `XINE_FINE_SPEED_NORMAL * 1005 / 1000` and moves to dvbspeed 3
(video) resp. 6 (audio) — the "play 0.5 % faster" states — not 2/5; when
the threshold test fails, the dvbspeed state is unchanged and no speed
change is requested (only the fill history advances). -/
theorem C4_slow_fill_transition_amended (s : NbcDvb)
    (fill_pts out_pts used cap : Int) (fs : Bool) :
    (s.dvbspeed = 1 →
      ((((nbc_stats_add s.stats (fill_pts + out_pts)).2 : Int)
            > s.dvbs_center + s.dvbs_width ∨ 100 * used > 98 * cap) →
        dvbspeed_put s true fill_pts out_pts used cap fs
          = ({ s with
                dvbspeed := 3,
                stats := (nbc_stats_add s.stats (fill_pts + out_pts)).1 },
              XINE_FINE_SPEED_NORMAL * 1005 / 1000))
      ∧ (¬ ((((nbc_stats_add s.stats (fill_pts + out_pts)).2 : Int)
            > s.dvbs_center + s.dvbs_width) ∨ 100 * used > 98 * cap) →
        dvbspeed_put s true fill_pts out_pts used cap fs
          = ({ s with stats := (nbc_stats_add s.stats (fill_pts + out_pts)).1 },
              -1)))
    ∧ (s.dvbspeed = 4 →
      ((((nbc_stats_add s.stats (fill_pts + out_pts)).2 : Int)
            > s.dvbs_center + s.dvbs_width ∨ 100 * used > 98 * cap) →
        dvbspeed_put s false fill_pts out_pts used cap fs
          = ({ s with
                dvbspeed := 6,
                stats := (nbc_stats_add s.stats (fill_pts + out_pts)).1 },
              XINE_FINE_SPEED_NORMAL * 1005 / 1000))
      ∧ (¬ ((((nbc_stats_add s.stats (fill_pts + out_pts)).2 : Int)
            > s.dvbs_center + s.dvbs_width) ∨ 100 * used > 98 * cap) →
        dvbspeed_put s false fill_pts out_pts used cap fs
          = ({ s with stats := (nbc_stats_add s.stats (fill_pts + out_pts)).1 },
              -1))) := by
  constructor
  · intro hs
    constructor
    · intro hcond
      simp only [dvbspeed_put]
      rw [hs]
      rw [if_neg (by decide), if_neg (by decide), if_pos (by decide),
        if_pos hcond]
    · intro hcond
      simp only [dvbspeed_put]
      rw [hs]
      rw [if_neg (by decide), if_neg (by decide), if_pos (by decide),
        if_neg hcond]
  · intro hs
    constructor
    · intro hcond
      simp only [dvbspeed_put]
      rw [hs]
      rw [if_neg (by decide), if_neg (by decide), if_pos (by decide),
        if_pos hcond]
    · intro hcond
      simp only [dvbspeed_put]
      rw [hs]
      rw [if_neg (by decide), if_neg (by decide), if_pos (by decide),
        if_neg hcond]

/-- C4, amended, witness: the dvbspeed-1 occupancy case of the
counterexample input, via the amended theorem. -/
theorem C4_slow_fill_transition_amended_witness :
    dvbspeed_put ⟨1, 180000, 90000, nbc_stats_reset, 0, 0⟩ true 0 0 99 100 true
      = ({ dvbspeed := 3,
            dvbs_center := 180000,
            dvbs_width := 90000,
            stats := (nbc_stats_add nbc_stats_reset (0 + 0)).1,
            audio_last_in_pts := 0,
            video_last_in_pts := 0 },
          XINE_FINE_SPEED_NORMAL * 1005 / 1000) :=
  ((C4_slow_fill_transition_amended ⟨1, 180000, 90000, nbc_stats_reset, 0, 0⟩
      0 0 99 100 true).1 rfl).1 (Or.inr (by norm_num))

/-- C9: cross-fifo gating of the dvbspeed machine.  In the video-watch
states 1-3 an audio-fifo event returns at once with the state unchanged and
no speed request; in the audio-watch states 4-6 a video-fifo event likewise;
in state 0 (OFF) events of either fifo change nothing; in state 7
(prebuffering) neither fifo is gated, and the first put crossing the start
threshold decides the family: a video put enters state 1, an audio put
state 4. -/
theorem C9_cross_fifo_gating (s : NbcDvb) (fp op u c : Int) (fs : Bool) :
    (s.dvbspeed = 1 ∨ s.dvbspeed = 2 ∨ s.dvbspeed = 3 →
      dvbspeed_put s false fp op u c fs = (s, -1)
      ∧ dvbspeed_get s false fp op u c = (s, -1))
    ∧ (s.dvbspeed = 4 ∨ s.dvbspeed = 5 ∨ s.dvbspeed = 6 →
      dvbspeed_put s true fp op u c fs = (s, -1)
      ∧ dvbspeed_get s true fp op u c = (s, -1))
    ∧ (s.dvbspeed = 0 →
      dvbspeed_put s true fp op u c fs = (s, -1)
      ∧ dvbspeed_put s false fp op u c fs = (s, -1)
      ∧ dvbspeed_get s true fp op u c = (s, -1)
      ∧ dvbspeed_get s false fp op u c = (s, -1))
    ∧ (s.dvbspeed = 7 →
      fp + op > s.dvbs_center ∨ 100 * u > 73 * c →
      (dvbspeed_put s true fp op u c fs).1.dvbspeed = 1
      ∧ (dvbspeed_put s false fp op u c fs).1.dvbspeed = 4) := by
  refine ⟨?_, ?_, ?_, ?_⟩
  · rintro (h | h | h) <;>
      exact ⟨dvbspeed_put_gated_audio s fp op u c fs (by rw [h]; decide),
        dvbspeed_get_gated_audio s fp op u c (by rw [h]; decide)⟩
  · rintro (h | h | h) <;>
      exact ⟨dvbspeed_put_gated_video s fp op u c fs (by rw [h]; decide),
        dvbspeed_get_gated_video s fp op u c (by rw [h]; decide)⟩
  · intro h
    exact ⟨dvbspeed_put_gated_video s fp op u c fs (by rw [h]; decide),
      dvbspeed_put_gated_audio s fp op u c fs (by rw [h]; decide),
      dvbspeed_get_gated_video s fp op u c (by rw [h]; decide),
      dvbspeed_get_gated_audio s fp op u c (by rw [h]; decide)⟩
  · intro h7 hcross
    constructor
    · simp only [dvbspeed_put]
      rw [h7]
      rw [if_neg (by decide), if_neg (by decide), if_neg (by decide),
        if_pos rfl, if_pos hcross]
      simp
    · simp only [dvbspeed_put]
      rw [h7]
      rw [if_neg (by decide), if_neg (by decide), if_neg (by decide),
        if_pos rfl, if_pos hcross]
      simp

/-- C9, witness: state 2 ignores audio events; state 7 lets a video put that
crosses the threshold enter state 1. -/
theorem C9_cross_fifo_gating_witness :
    (dvbspeed_put ⟨2, 180000, 90000, nbc_stats_reset, 0, 0⟩ false 5 5 5 100 true
      = (⟨2, 180000, 90000, nbc_stats_reset, 0, 0⟩, -1))
    ∧ ((dvbspeed_put ⟨7, 180000, 90000, nbc_stats_reset, 0, 0⟩ true 200000 0 50
        100 true).1.dvbspeed = 1) :=
  ⟨((C9_cross_fifo_gating ⟨2, 180000, 90000, nbc_stats_reset, 0, 0⟩ 5 5 5 100
      true).1 (Or.inr (Or.inl rfl))).1,
   ((C9_cross_fifo_gating ⟨7, 180000, 90000, nbc_stats_reset, 0, 0⟩ 200000 0 50
      100 true).2.2.2 rfl (Or.inl (by norm_num))).1⟩

/-- C10: on the put that leaves PAUSED_PREBUFFERING (dvbspeed 7, threshold
crossed), the new state is dvbspeed 1 (video put) or 4 (audio put) and its
stats are `nbc_stats_flat` of the current fill: every history entry holds the
current quantized level, the bucket counts are 1024 at that level and 0
elsewhere, and the tracked minimum — and the naive minimum of the history —
equal the current quantized fill, so the recent-minimum statistic starts at
the current fill rather than at the zeros accumulated while prebuffering;
the flat state satisfies the stats invariant, so later updates stay exact. -/
theorem C10_stats_flat_on_leaving_prebuffer (s : NbcDvb) (fp op u c : Int)
    (fs : Bool) (h7 : s.dvbspeed = 7)
    (hcross : fp + op > s.dvbs_center ∨ 100 * u > 73 * c) :
    ((dvbspeed_put s true fp op u c fs).1.dvbspeed = 1
      ∧ (dvbspeed_put s false fp op u c fs).1.dvbspeed = 4)
    ∧ (∀ b : Bool, (dvbspeed_put s b fp op u c fs).1.stats
        = nbc_stats_flat s.stats (fp + op))
    ∧ (∀ i, (nbc_stats_flat s.stats (fp + op)).hist i = quantLevel (fp + op))
    ∧ (∀ v, (nbc_stats_flat s.stats (fp + op)).num v
        = if v = quantLevel (fp + op) then 1024 else 0)
    ∧ (nbc_stats_flat s.stats (fp + op)).min = quantLevel (fp + op)
    ∧ histMin (nbc_stats_flat s.stats (fp + op)).hist = quantLevel (fp + op)
    ∧ StatsInv (nbc_stats_flat s.stats (fp + op)) := by
  have hv : dvbspeed_put s true fp op u c fs
      = ({ s with
            dvbspeed := 1,
            dvbs_center :=
              if s.audio_last_in_pts ≠ 0 ∧ s.video_last_in_pts ≠ 0 ∧ True then
                if s.video_last_in_pts - s.audio_last_in_pts + 110000 < 3 * 90000
                    ∧ s.video_last_in_pts - s.audio_last_in_pts + 110000
                      > 2 * 90000 then
                  s.video_last_in_pts - s.audio_last_in_pts + 110000
                else 2 * 90000
              else 2 * 90000,
            dvbs_width := if u < 30 then 135000 else s.dvbs_width,
            stats := nbc_stats_flat s.stats (fp + op) },
          if fs then 0 else -1) := by
    simp only [dvbspeed_put]
    rw [h7]
    rw [if_neg (by decide), if_neg (by decide), if_neg (by decide),
      if_pos rfl, if_pos hcross]
    simp
  have ha : dvbspeed_put s false fp op u c fs
      = ({ s with
            dvbspeed := 4,
            dvbs_center := (2 * 90000 : Int),
            dvbs_width := if u < 30 then 135000 else s.dvbs_width,
            stats := nbc_stats_flat s.stats (fp + op) },
          if fs then 0 else -1) := by
    simp only [dvbspeed_put]
    rw [h7]
    rw [if_neg (by decide), if_neg (by decide), if_neg (by decide),
      if_pos rfl, if_pos hcross]
    simp
  refine ⟨⟨by rw [hv], by rw [ha]⟩, ?_, fun i => rfl, fun v => rfl, rfl,
    histMin_const _, statsInv_flat s.stats (fp + op)⟩
  intro b
  cases b
  · rw [ha]
  · rw [hv]

/-- C10, witness: leaving prebuffering with 2.2 s of video queued. -/
theorem C10_stats_flat_on_leaving_prebuffer_witness :
    (((dvbspeed_put ⟨7, 180000, 90000, nbc_stats_reset, 0, 0⟩ true 200000 0 50
        100 true).1.dvbspeed = 1)
      ∧ ((dvbspeed_put ⟨7, 180000, 90000, nbc_stats_reset, 0, 0⟩ false 200000 0
        50 100 true).1.dvbspeed = 4))
    ∧ (∀ b : Bool,
        (dvbspeed_put ⟨7, 180000, 90000, nbc_stats_reset, 0, 0⟩ b 200000 0 50
          100 true).1.stats = nbc_stats_flat nbc_stats_reset (200000 + 0))
    ∧ (∀ i, (nbc_stats_flat nbc_stats_reset (200000 + 0)).hist i
        = quantLevel (200000 + 0))
    ∧ (∀ v, (nbc_stats_flat nbc_stats_reset (200000 + 0)).num v
        = if v = quantLevel (200000 + 0) then 1024 else 0)
    ∧ (nbc_stats_flat nbc_stats_reset (200000 + 0)).min = quantLevel (200000 + 0)
    ∧ histMin (nbc_stats_flat nbc_stats_reset (200000 + 0)).hist
        = quantLevel (200000 + 0)
    ∧ StatsInv (nbc_stats_flat nbc_stats_reset (200000 + 0)) :=
  C10_stats_flat_on_leaving_prebuffer ⟨7, 180000, 90000, nbc_stats_reset, 0, 0⟩
    200000 0 50 100 true rfl (Or.inl (by norm_num))

/-- C8: per-buffer pts-difference handling in the put and get callbacks.
With `diff` the difference between the new and the previously seen pts in
that direction: a magnitude up to 220000 is accumulated into `fill_pts`
(added on put, subtracted on get; put also advances `pos_pts`); a larger
magnitude gets one wraparound correction of ±2^33; if the corrected value is
still out of range the sample is discarded — `fill_pts` is unchanged and
only the last-seen pts is updated. -/
theorem C8_pts_jump_handling (last fill pos pts : Int)
    (hpts : pts ≠ 0) (hlast : last ≠ 0) :
    ((-220000 ≤ pts - last ∧ pts - last ≤ 220000) →
      nbc_put_cb_pts last fill pos pts
        = (fill + (pts - last), pos + (pts - last), pts)
      ∧ nbc_get_cb_pts last fill pts = (fill - (pts - last), pts))
    ∧ ((pts - last > 220000 ∧ -220000 ≤ pts - last - 2 ^ 33
          ∧ pts - last - 2 ^ 33 ≤ 220000) →
      nbc_put_cb_pts last fill pos pts
        = (fill + (pts - last - 2 ^ 33), pos + (pts - last - 2 ^ 33), pts)
      ∧ nbc_get_cb_pts last fill pts = (fill - (pts - last - 2 ^ 33), pts))
    ∧ ((pts - last < -220000 ∧ -220000 ≤ pts - last + 2 ^ 33
          ∧ pts - last + 2 ^ 33 ≤ 220000) →
      nbc_put_cb_pts last fill pos pts
        = (fill + (pts - last + 2 ^ 33), pos + (pts - last + 2 ^ 33), pts)
      ∧ nbc_get_cb_pts last fill pts = (fill - (pts - last + 2 ^ 33), pts))
    ∧ ((pts - last > 220000
          ∧ (pts - last - 2 ^ 33 < -220000 ∨ pts - last - 2 ^ 33 > 220000)) →
      nbc_put_cb_pts last fill pos pts = (fill, pos, pts)
      ∧ nbc_get_cb_pts last fill pts = (fill, pts))
    ∧ ((pts - last < -220000
          ∧ (pts - last + 2 ^ 33 < -220000 ∨ pts - last + 2 ^ 33 > 220000)) →
      nbc_put_cb_pts last fill pos pts = (fill, pos, pts)
      ∧ nbc_get_cb_pts last fill pts = (fill, pts)) := by
  refine ⟨fun h => ⟨?_, ?_⟩, fun h => ⟨?_, ?_⟩, fun h => ⟨?_, ?_⟩,
    fun h => ⟨?_, ?_⟩, fun h => ⟨?_, ?_⟩⟩ <;>
  · simp only [nbc_put_cb_pts, nbc_get_cb_pts]
    split_ifs <;> first | rfl | (exfalso; omega)

/-- C8, witness: an in-range step, pts 2 after pts 1. -/
theorem C8_pts_jump_handling_witness :
    nbc_put_cb_pts 1 10 20 2 = (10 + ((2 : Int) - 1), 20 + ((2 : Int) - 1), 2)
    ∧ nbc_get_cb_pts 1 10 2 = (10 - ((2 : Int) - 1), 2) :=
  (C8_pts_jump_handling 1 10 20 2 (by decide) (by decide)).1 (by norm_num)

/-- C7, counterexample.  A stream whose video queue is configured at 2× the
reference capacity (1000 buffers vs a 500 default) but whose audio queue is
at the default (230 of 230) gets `high_water_mark = 5000`, not
`2 * DEFAULT_HIGH_WATER_MARK`: `xine_nbc_init` scales by the smaller of the
two capacity ratios, not by each queue's own ratio. -/
theorem C7_high_water_mark_counterexample :
    xine_nbc_init_high_water_mark 1000 (some 500) 230 (some 230) = 5000
    ∧ (5000 : Nat) ≠ 2 * DEFAULT_HIGH_WATER_MARK := by
  constructor
  · have hv : fifo_factor 1000 (some 500) = 2 := by
      norm_num [fifo_factor]
    have ha : fifo_factor 230 (some 230) = 1 := by
      norm_num [fifo_factor]
    unfold xine_nbc_init_high_water_mark
    rw [hv, ha, if_neg (by norm_num)]
    norm_num [DEFAULT_HIGH_WATER_MARK]
    rfl
  · decide

/-- C7, amended: the effective high-water mark is the default scaled by the
*smaller* of the two queues' capacity-to-default ratios; in particular when
both queues (hence the stream) are configured at the same ratio — e.g. 2× —
the mark is exactly that multiple of `DEFAULT_HIGH_WATER_MARK`. -/
theorem C7_high_water_mark_amended (vcap acap : Nat) (vdef adef : Option Nat) :
    xine_nbc_init_high_water_mark vcap vdef acap adef
      = (⌊(DEFAULT_HIGH_WATER_MARK : ℚ)
          * min (fifo_factor vcap vdef) (fifo_factor acap adef)⌋).toNat
    ∧ (fifo_factor vcap vdef = 2 → fifo_factor acap adef = 2 →
        xine_nbc_init_high_water_mark vcap vdef acap adef
          = 2 * DEFAULT_HIGH_WATER_MARK) := by
  constructor
  · unfold xine_nbc_init_high_water_mark
    rcases lt_or_ge (fifo_factor vcap vdef) (fifo_factor acap adef) with h | h
    · rw [if_pos h, min_eq_left (le_of_lt h)]
    · rw [if_neg (not_lt.2 h), min_eq_right h]
  · intro hv ha
    unfold xine_nbc_init_high_water_mark
    rw [hv, ha, if_neg (lt_irrefl _)]
    norm_num [DEFAULT_HIGH_WATER_MARK]
    rfl

/-- C7, amended, witness: both queues at 2× their defaults give a mark of
10000, twice the default 5000. -/
theorem C7_high_water_mark_amended_witness :
    xine_nbc_init_high_water_mark 1000 (some 500) 460 (some 230)
      = 2 * DEFAULT_HIGH_WATER_MARK :=
  (C7_high_water_mark_amended 1000 460 (some 500) (some 230)).2
    (by norm_num [fifo_factor]) (by norm_num [fifo_factor])

end XineLib
